import Mathlib

/-!
Verification development for the AnomRecorder surveillance client.

Shallow embedding of the core components described in the spec:
- `ReconnectState` (src/utils/reconnect.py): exponential-backoff reconnect
  supervisor.
- `ZoomState` and `crop_zoom` (src/utils/zoom.py): zoom/pan state and the
  geometric crop transform.
- `RollingRecorder` (src/services/recording.py): the motion-triggered rolling
  recording state machine with its bounded pre-buffer.
- `_enforce_storage_limit` (src/ui/app.py): the storage-quota enforcer.

Python floats are modelled as rationals (`ℚ`); every value exercised by the
theorems below is a dyadic rational on which Python float arithmetic is exact.
Python ints are modelled as `ℤ` (or `ℕ` where the source value is a count).
Fallible functions return `Option`.
-/

namespace AnomRecorder

/-- Python `round` on an exact rational value: round half to even
(banker's rounding), as used by both builtin `round` and `numpy.round`. -/
def pyRound (q : ℚ) : ℤ :=
  let f : ℤ := ⌊q⌋
  let r : ℚ := q - (f : ℚ)
  if r < 1/2 then f
  else if 1/2 < r then f + 1
  else if Int.emod f 2 = 0 then f else f + 1

/-- Python `int()` applied to a float value: truncation toward zero. -/
def pyInt (q : ℚ) : ℤ :=
  if q < 0 then -⌊-q⌋ else ⌊q⌋

/-- Python list/array slicing `l[a:b]` for integer bounds (negative indices
count from the end; out-of-range bounds are clamped). -/
def pySlice {α : Type} (l : List α) (a b : ℤ) : List α :=
  let n : ℤ := l.length
  let a' : ℤ := if a < 0 then max 0 (n + a) else a
  let b' : ℤ := if b < 0 then max 0 (n + b) else b
  (l.drop a'.toNat).take (b' - a').toNat

/-! ## ReconnectState — src/utils/reconnect.py -/

/-- The `ReconnectState` dataclass. Times and delays are rationals standing
for Python floats; `attempt`/`max_attempts` are Python ints. -/
structure ReconnectState where
  enabled : Bool := true
  max_attempts : ℤ := 5
  base_delay : ℚ := 1
  max_delay : ℚ := 30
  attempt : ℤ := 0
  last_attempt_time : ℚ := 0
deriving DecidableEq

namespace ReconnectState

/-- `ReconnectState.should_attempt`, with the ambient `time.time()` made an
explicit argument `now`. -/
def should_attempt (s : ReconnectState) (now : ℚ) : Bool :=
  if !s.enabled then false
  else if s.max_attempts ≤ s.attempt then false
  else
    let delay : ℚ := min (s.base_delay * (2 : ℚ) ^ s.attempt) s.max_delay
    decide (delay ≤ now - s.last_attempt_time)

/-- `ReconnectState.record_attempt`, with `time.time()` explicit. -/
def record_attempt (s : ReconnectState) (now : ℚ) : ReconnectState :=
  { s with attempt := s.attempt + 1, last_attempt_time := now }

/-- `ReconnectState.reset`. -/
def reset (s : ReconnectState) : ReconnectState :=
  { s with attempt := 0, last_attempt_time := 0 }

/-- Dataclass construction with the configuration fields given and the
mutable fields at their defaults (`attempt=0`, `last_attempt_time=0.0`). -/
def make (enabled : Bool) (max_attempts : ℤ) (base_delay max_delay : ℚ) :
    ReconnectState :=
  { enabled := enabled, max_attempts := max_attempts,
    base_delay := base_delay, max_delay := max_delay }

end ReconnectState

/-! ## ZoomState — src/utils/zoom.py -/

/-- The `ZoomState` dataclass. -/
structure ZoomState where
  factor : ℚ := 1
  min_factor : ℚ := 1/2
  max_factor : ℚ := 4
  step : ℚ := 1/4
  pan_x : ℚ := 1/2
  pan_y : ℚ := 1/2
deriving DecidableEq

namespace ZoomState

/-- `ZoomState.zoom_in` (the returned float is the new `factor` field). -/
def zoom_in (s : ZoomState) : ZoomState :=
  { s with factor := min s.max_factor (s.factor + |s.step|) }

/-- `ZoomState.zoom_out`. -/
def zoom_out (s : ZoomState) : ZoomState :=
  { s with factor := max s.min_factor (s.factor - |s.step|) }

/-- `ZoomState.reset`. -/
def reset (s : ZoomState) : ZoomState :=
  { s with factor := 1, pan_x := 1/2, pan_y := 1/2 }

/-- `ZoomState.pan`. -/
def pan (s : ZoomState) (dx dy : ℚ) : ZoomState :=
  { s with pan_x := max 0 (min 1 (s.pan_x + dx)),
           pan_y := max 0 (min 1 (s.pan_y + dy)) }

end ZoomState

/-! ## crop_zoom — src/utils/zoom.py

Frames (`numpy.ndarray` with `ndim >= 2`) are modelled as lists of rows; a
pixel of type `α` stands for one entry of the trailing axes (a scalar for a
grey frame, a colour triple for a BGR frame).  `_validate_frame` rejects
non-arrays and arrays with `ndim < 2`; both are unrepresentable in this model,
so the only failure path left is `zoom_factor <= 0` (and the impossible
non-positive target of `_resize_nearest`), modelled by `Option`. -/

abbrev Frame (α : Type) : Type := List (List α)

/-- `frame.shape[0]`. -/
def frameH {α : Type} (f : Frame α) : ℕ := f.length

/-- `frame.shape[1]` (numpy arrays are rectangular; we read the width off the
first row). -/
def frameW {α : Type} (f : Frame α) : ℕ := (f.headD []).length

/-- Rectangularity: every row has length `w`.  Holds for every numpy array of
shape `(h, w, ...)`. -/
def IsRect {α : Type} (f : Frame α) (w : ℕ) : Prop := ∀ row ∈ f, row.length = w

instance instDecidableIsRect {α : Type} (f : Frame α) (w : ℕ) :
    Decidable (IsRect f w) :=
  List.decidableBAll _ f

/-- `np.linspace(0, stop, num)` (float endpoints; exact rational model). -/
def linspace0 (stop : ℤ) (num : ℕ) : List ℚ :=
  if num = 1 then [0]
  else (List.range num).map (fun i => (stop : ℚ) * (i : ℚ) / ((num : ℚ) - 1))

/-- `np.clip(np.round(np.linspace(0, len-1, num)).astype(int), 0, len-1)`. -/
def nearestIdx (len num : ℕ) : List ℕ :=
  (linspace0 ((len : ℤ) - 1) num).map
    (fun v => (max 0 (min ((len : ℤ) - 1) (pyRound v))).toNat)

/-- `_resize_nearest`: nearest-neighbour resampling.  `none` models the
`ValueError` on a non-positive target size. -/
def resizeNearest {α : Type} [Zero α] (frame : Frame α) (new_h new_w : ℕ) :
    Option (Frame α) :=
  if new_h = 0 ∨ new_w = 0 then none
  else if new_h = frameH frame ∧ new_w = frameW frame then some frame
  else
    let yIdx := nearestIdx (frameH frame) new_h
    let xIdx := nearestIdx (frameW frame) new_w
    some (yIdx.map (fun i =>
      let row := frame.getD i []
      xIdx.map (fun j => row.getD j 0)))

/-- The `PanInput` union: a scalar normalized pan, or a `(dx, dy)` pixel
tuple. -/
inductive PanInput : Type where
  | scalar (x : ℚ)
  | pair (x y : ℚ)
deriving DecidableEq

/-- Result of `_parse_pan`: normalized coords, pixel offsets, mode flag. -/
structure ParsedPan where
  nx : ℚ
  ny : ℚ
  ox : ℚ
  oy : ℚ
  pixelMode : Bool
deriving DecidableEq

/-- `_parse_pan`. -/
def parsePan (pan_x : PanInput) (pan_y : ℚ) : ParsedPan :=
  match pan_x with
  | .pair a b => ⟨1/2, 1/2, a, b, true⟩
  | .scalar x => ⟨max 0 (min 1 x), max 0 (min 1 pan_y), 0, 0, false⟩

/-- `canvas = np.zeros_like(frame); canvas[y0:y0+sh, x0:x0+sw] = scaled`. -/
def placeOnCanvas {α : Type} [Zero α] (frame scaled : Frame α)
    (y0 x0 sh sw : ℤ) : Frame α :=
  frame.mapIdx (fun r row =>
    row.mapIdx (fun c _ =>
      if y0 ≤ (r : ℤ) ∧ (r : ℤ) < y0 + sh ∧ x0 ≤ (c : ℤ) ∧ (c : ℤ) < x0 + sw
      then (scaled.getD ((r : ℤ) - y0).toNat []).getD ((c : ℤ) - x0).toNat 0
      else 0))

/-- `crop_zoom`: zoomed/panned copy of the frame with bounds checking.
`none` models the raised `ValueError`s. -/
def crop_zoom {α : Type} [Zero α] (frame : Frame α) (zoom_factor : ℚ)
    (pan_x : PanInput := .scalar (1/2)) (pan_y : ℚ := 1/2) :
    Option (Frame α) :=
  if zoom_factor ≤ 0 then none
  else
    let p := parsePan pan_x pan_y
    if zoom_factor = 1 ∧ p.pixelMode = false ∧ p.nx = 1/2 ∧ p.ny = 1/2 then
      some frame
    else
      let h : ℤ := frameH frame
      let w : ℤ := frameW frame
      if zoom_factor < 1 then
        -- Zoom out: shrink frame and pad with zeros to keep original shape.
        let shrink_w : ℤ := max 1 (pyRound ((w : ℚ) * zoom_factor))
        let shrink_h : ℤ := max 1 (pyRound ((h : ℚ) * zoom_factor))
        match resizeNearest frame shrink_h.toNat shrink_w.toNat with
        | none => none
        | some scaled =>
          let maxXOff : ℤ := w - shrink_w
          let maxYOff : ℤ := h - shrink_h
          let xRaw : ℤ :=
            if p.pixelMode then pyRound ((maxXOff : ℚ) / 2 + p.ox)
            else pyRound (p.nx * (maxXOff : ℚ))
          let yRaw : ℤ :=
            if p.pixelMode then pyRound ((maxYOff : ℚ) / 2 + p.oy)
            else pyRound (p.ny * (maxYOff : ℚ))
          let x0 : ℤ := max 0 (min maxXOff xRaw)
          let y0 : ℤ := max 0 (min maxYOff yRaw)
          some (placeOnCanvas frame scaled y0 x0 shrink_h shrink_w)
      else
        -- Zoom in: crop using pan center.
        let new_w : ℤ := max 1 (pyRound ((w : ℚ) / zoom_factor))
        let new_h : ℤ := max 1 (pyRound ((h : ℚ) / zoom_factor))
        let cx : ℤ :=
          if p.pixelMode then pyRound (((w : ℚ) - 1) / 2 + p.ox)
          else pyRound (p.nx * ((w : ℚ) - 1))
        let cy : ℤ :=
          if p.pixelMode then pyRound (((h : ℚ) - 1) / 2 + p.oy)
          else pyRound (p.ny * ((h : ℚ) - 1))
        let x0 : ℤ := max 0 (min (w - new_w) (cx - Int.fdiv new_w 2))
        let y0 : ℤ := max 0 (min (h - new_h) (cy - Int.fdiv new_h 2))
        some ((pySlice frame y0 (y0 + new_h)).map
          (fun row => pySlice row x0 (x0 + new_w)))

/-! ## RollingRecorder — src/services/recording.py

Frames handed to `update` are opaque (`ℕ` identifiers); `time.time()` is an
explicit `now : ℚ` input per call.  File paths are opaque `ℕ` names.  The
writer factory's observable behaviour at trigger time is an explicit input of
each call (`WriterOpenOutcome`): the default factory builds a timestamped
path, constructs the `cv2.VideoWriter`, stores the path in `_event_path`, and
returns; `_open_writer` then raises if the writer is not opened.  An injected
or default factory may instead raise before `_event_path` is assigned. -/

/-- `RecorderConfig` (the `out_dir`/`cam_slot` fields only feed path
generation, which is abstracted into the per-call `WriterOpenOutcome`). -/
structure RecorderConfig where
  pre_seconds : ℚ := 3
  post_seconds : ℚ := 5
  target_fps : ℤ := 30
deriving DecidableEq

/-- `deque(maxlen = int(pre_seconds * target_fps))` capacity. -/
def RecorderConfig.maxlen (cfg : RecorderConfig) : ℕ :=
  (pyInt (cfg.pre_seconds * (cfg.target_fps : ℚ))).toNat

/-- Observable outcome of the writer factory call on a trigger tick. -/
inductive WriterOpenOutcome : Type where
  /-- The factory raised before assigning `_event_path` (e.g. the
  `cv2.VideoWriter` constructor itself failed). -/
  | raised
  /-- Default-factory failure: the writer object was returned unopened, after
  `_event_path` was already assigned the freshly generated `path`. -/
  | unopened (path : ℕ)
  /-- Success: an opened writer for the freshly generated `path`. -/
  | opened (path : ℕ)
deriving DecidableEq

/-- The mutable fields of a `RollingRecorder`.  `writer` is `some ws` when
`_writer` is a live `cv2.VideoWriter`, with `ws` the frames written so far. -/
structure RecorderState where
  prebuffer : List (ℚ × ℕ) := []
  writer : Option (List ℕ) := none
  recording : Bool := false
  last_motion_ts : Option ℚ := none
  start_ts : Option ℚ := none
  event_path : Option ℕ := none
  persons_max : ℕ := 0
deriving DecidableEq

/-- The freshly constructed recorder (`RollingRecorder.__init__`). -/
def RecorderState.init : RecorderState := {}

/-- One `update` call's inputs: ambient clock, frame, trigger, person count,
and the writer factory's behaviour if it gets called this tick. -/
structure UpdateInput where
  now : ℚ
  frame : ℕ
  motion : Bool
  person_count : ℕ
  openOutcome : WriterOpenOutcome
deriving DecidableEq

/-- `new_event` dictionary (path and start time). -/
structure NewEvent where
  path : ℕ
  start : ℚ
deriving DecidableEq

/-- `finished_event` dictionary. -/
structure FinishedEvent where
  path : Option ℕ
  endTs : ℚ
  duration : ℚ
  persons_max : ℕ
deriving DecidableEq

/-- `deque.append` on a deque with `maxlen` capacity: FIFO eviction of the
oldest entry on overflow (capacity 0 keeps the deque empty). -/
def dequeAppend {α : Type} (maxlen : ℕ) (l : List α) (x : α) : List α :=
  if maxlen = 0 then []
  else if l.length < maxlen then l ++ [x]
  else l.tail ++ [x]

/-- `RollingRecorder.update`.  Returns the successor state and the
`(new_event, finished_event)` pair. -/
def update (cfg : RecorderConfig) (s : RecorderState) (i : UpdateInput) :
    RecorderState × Option NewEvent × Option FinishedEvent :=
  -- self._prebuffer.append((now, frame_bgr.copy()))
  let s0 : RecorderState :=
    { s with prebuffer := dequeAppend cfg.maxlen s.prebuffer (i.now, i.frame) }
  -- if motion_trigger and not self._recording: ...
  let opened : RecorderState × Option NewEvent :=
    if i.motion && !s0.recording then
      match i.openOutcome with
      | .raised => ({ s0 with writer := none, recording := false }, none)
      | .unopened p =>
          ({ s0 with event_path := some p, writer := none, recording := false },
           none)
      | .opened p =>
          let cutoff : ℚ := i.now - cfg.pre_seconds
          let flushed : List ℕ :=
            (s0.prebuffer.filter (fun e => cutoff ≤ e.1)).map (·.2)
          ({ s0 with event_path := some p, writer := some flushed,
                     recording := true, start_ts := some i.now,
                     last_motion_ts := some i.now,
                     persons_max := max s0.persons_max i.person_count },
           some ⟨p, i.now⟩)
    else (s0, none)
  let s1 := opened.1
  let new_event := opened.2
  -- if self._recording and self._writer is not None: ...
  if s1.recording ∧ s1.writer.isSome then
    let s2 : RecorderState :=
      { s1 with writer := some ((s1.writer.getD []) ++ [i.frame]) }
    let s3 : RecorderState :=
      if i.motion then
        { s2 with last_motion_ts := some i.now,
                  persons_max := max s2.persons_max i.person_count }
      else s2
    match s3.last_motion_ts with
    | some lm =>
        if cfg.post_seconds ≤ i.now - lm then
          -- duration = now - (self._start_ts or now): Python `or` treats a
          -- 0.0 start timestamp as falsy.
          let startEff : ℚ :=
            match s3.start_ts with
            | some t => if t = 0 then i.now else t
            | none => i.now
          let fin : FinishedEvent :=
            ⟨s3.event_path, i.now, i.now - startEff, s3.persons_max⟩
          ({ s3 with recording := false, writer := none,
                     last_motion_ts := none, start_ts := none,
                     event_path := none, persons_max := 0 },
           new_event, some fin)
        else (s3, new_event, none)
    | none => (s3, new_event, none)
  else (s1, new_event, none)

/-- Fold a sequence of `update` calls, keeping only the state. -/
def runRec (cfg : RecorderConfig) (s : RecorderState) :
    List UpdateInput → RecorderState
  | [] => s
  | i :: rest => runRec cfg (update cfg s i).1 rest

/-- The `(new_event, finished_event)` outputs of a sequence of calls. -/
def runOuts (cfg : RecorderConfig) (s : RecorderState) :
    List UpdateInput → List (Option NewEvent × Option FinishedEvent)
  | [] => []
  | i :: rest => (update cfg s i).2 :: runOuts cfg (update cfg s i).1 rest

/-! ## Storage-quota enforcer — `App._enforce_storage_limit`, src/ui/app.py

The candidate list models the `(st_mtime, Path, st_size)` triples gathered
from `record_dir.glob("*.avi")` (files whose `stat` raised are already
skipped by the source loop and hence absent).  `files.sort()` sorts those
tuples lexicographically; file unlinking may fail per file, modelled by the
`ok` predicate. -/

/-- One `(file.stat().st_mtime, file, file.stat().st_size)` tuple. -/
structure FileInfo where
  mtime : ℚ
  name : ℕ
  size : ℤ
deriving DecidableEq

/-- Python tuple `<=` on `(mtime, name, size)`. -/
def fileLE (a b : FileInfo) : Bool :=
  if a.mtime ≠ b.mtime then decide (a.mtime < b.mtime)
  else if a.name ≠ b.name then decide (a.name < b.name)
  else decide (a.size ≤ b.size)

/-- Insert into a `fileLE`-sorted list. -/
def insertFile (x : FileInfo) : List FileInfo → List FileInfo
  | [] => [x]
  | y :: ys => if fileLE x y then x :: y :: ys else y :: insertFile x ys

/-- `files.sort()`: ascending lexicographic order on the tuples. -/
def sortFiles : List FileInfo → List FileInfo
  | [] => []
  | x :: xs => insertFile x (sortFiles xs)

/-- Sortedness by the Python tuple order. -/
def SortedLE (l : List FileInfo) : Prop :=
  l.Pairwise (fun a b => fileLE a b = true)

/-- `sum(size for _, _, size in files)`. -/
def sumSizes (files : List FileInfo) : ℤ :=
  (files.map (·.size)).sum

/-- The `while total > limit_b and idx < len(files)` loop over the sorted
candidates, with running total `total`.  Returns the list of files actually
unlinked, in deletion order: a failed `unlink` (`ok f = false`) is skipped
(`total` not decreased) and the loop continues with the next candidate. -/
def evictLoop (limit : ℤ) (ok : FileInfo → Bool) :
    List FileInfo → ℤ → List FileInfo
  | files, total =>
    if total ≤ limit then []
    else
      match files with
      | [] => []
      | f :: rest =>
        if ok f then f :: evictLoop limit ok rest (total - f.size)
        else evictLoop limit ok rest total

/-- `App._enforce_storage_limit`, abstracted over the byte limit and the
per-file unlink outcome: the files deleted, in order. -/
def enforceStorageLimit (files : List FileInfo) (limit : ℤ)
    (ok : FileInfo → Bool) : List FileInfo :=
  let sorted := sortFiles files
  evictLoop limit ok sorted (sumSizes sorted)

/-! ## Derived notions used by the theorem statements -/

/-- Motion-gated running maximum of person counts over a call sequence:
starting from `m`, each call with `motion = true` contributes its
`person_count`; calls without motion contribute nothing. -/
def accMax (m : ℕ) (l : List UpdateInput) : ℕ :=
  l.foldl (fun acc i => if i.motion then max acc i.person_count else acc) m

/-- The `finished_event` outputs of a call sequence. -/
def runFins (cfg : RecorderConfig) (s : RecorderState)
    (l : List UpdateInput) : List (Option FinishedEvent) :=
  (runOuts cfg s l).map (·.2)

/-- The 2x-crop output size the code actually produces for an axis of length
`n ≥ 1`: `int(round(n / 2.0))` under round-half-to-even, clamped to at least
1.  Equals `⌊n / 2⌋` except when `n % 4 = 3`, where it is `⌊n / 2⌋ + 1`. -/
def croppedHalf (n : ℕ) : ℕ :=
  max 1 (if n % 4 = 3 then n / 2 + 1 else n / 2)

/-- A 7×7 all-zero frame (concrete counterexample input). -/
def frame7 : Frame ℤ := List.replicate 7 (List.replicate 7 0)

/-- A concrete 4×4 frame with distinct pixels. -/
def frame4 : Frame ℤ :=
  [[1, 2, 3, 4], [5, 6, 7, 8], [9, 10, 11, 12], [13, 14, 15, 16]]

/-- A `ZoomState` whose factor bounds exclude 1.0 (concrete counterexample
input for the reset-bounds question). -/
def zoomCE : ZoomState :=
  { factor := 3, min_factor := 2, max_factor := 4, step := 1/4,
    pan_x := 1/2, pan_y := 1/2 }

/-- A recorder configuration with a zero post-roll (the dataclass accepts
it). -/
def cfgPostZero : RecorderConfig := { post_seconds := 0 }

/-! ## Theorems -/

/-- Helper: `update` emits a `new_event` exactly when the trigger fires in
the Idle state and the writer factory succeeds. -/
theorem update_newEvent (cfg : RecorderConfig) (s : RecorderState)
    (i : UpdateInput) :
    (update cfg s i).2.1 =
      (if i.motion && !s.recording then
        match i.openOutcome with
        | .opened p => some ⟨p, i.now⟩
        | _ => none
      else none) := by
  by_cases hio : (i.motion && !s.recording) = true
  · simp only [Bool.and_eq_true] at hio
    obtain ⟨hm, hrec'⟩ := hio
    have hrec : s.recording = false := by
      cases h : s.recording <;> simp_all
    rcases ho : i.openOutcome with _ | p | p
    · simp [update, hm, hrec, ho]
    · simp [update, hm, hrec, ho]
    · simp only [update, hm, hrec, ho]
      simp only [Bool.not_false, Bool.and_self, if_true]
      split
      · split <;> rfl
      · simp_all
  · have hio' : (i.motion && !s.recording) = false := by
      cases h : (i.motion && !s.recording) with
      | false => rfl
      | true => exact absurd h hio
    simp only [update, hio', Bool.false_eq_true, if_false]
    split
    · split
      · split <;> rfl
      · rfl
    · rfl

/-- Claim C2 is false as stated: an Idle-state trigger whose default-factory
writer fails to open (`cv2.VideoWriter` returned unopened) does return
`(None, None)` with no event and stays Idle, but the recorder state is *not*
unchanged apart from the pre-buffer append — `_default_writer_factory`
assigns the freshly generated path to `_event_path` before `_open_writer`
detects the failure. -/
theorem C2_counterexample :
    (update {} RecorderState.init ⟨0, 100, true, 0, .unopened 3⟩).2.1 =
        none ∧
      (update {} RecorderState.init ⟨0, 100, true, 0, .unopened 3⟩).2.2 =
        none ∧
      (update {} RecorderState.init ⟨0, 100, true, 0, .unopened 3⟩).1.recording
        = false ∧
      (update {} RecorderState.init
          ⟨0, 100, true, 0, .unopened 3⟩).1.event_path ≠
        RecorderState.init.event_path := by
  decide

/-- Claim C2 as amended: on an Idle-state trigger whose default-factory
writer fails to open, `update` returns `(None, None)`, creates no event, and
leaves the recorder Idle with `last_motion_ts`, `start_ts` and `persons_max`
unchanged and only the pre-buffer appended — except that `_event_path` is
overwritten with the newly generated candidate path. -/
theorem C2_failed_open (cfg : RecorderConfig) (s : RecorderState)
    (i : UpdateInput) (p : ℕ)
    (hrec : s.recording = false) (hm : i.motion = true)
    (ho : i.openOutcome = .unopened p) :
    (update cfg s i).2.1 = none ∧ (update cfg s i).2.2 = none ∧
      (update cfg s i).1.recording = false ∧
      (update cfg s i).1.writer = none ∧
      (update cfg s i).1.last_motion_ts = s.last_motion_ts ∧
      (update cfg s i).1.start_ts = s.start_ts ∧
      (update cfg s i).1.persons_max = s.persons_max ∧
      (update cfg s i).1.event_path = some p ∧
      (update cfg s i).1.prebuffer =
        dequeAppend cfg.maxlen s.prebuffer (i.now, i.frame) := by
  simp [update, hrec, hm, ho]

/-- Claim C2 amended-theorem witness at a concrete state and input. -/
theorem C2_witness :
    (update {} RecorderState.init ⟨1, 42, true, 2, .unopened 9⟩).2.1 = none ∧
      (update {} RecorderState.init ⟨1, 42, true, 2, .unopened 9⟩).2.2 =
        none ∧
      (update {} RecorderState.init
          ⟨1, 42, true, 2, .unopened 9⟩).1.recording = false ∧
      (update {} RecorderState.init ⟨1, 42, true, 2, .unopened 9⟩).1.writer =
        none ∧
      (update {} RecorderState.init
            ⟨1, 42, true, 2, .unopened 9⟩).1.last_motion_ts =
        RecorderState.init.last_motion_ts ∧
      (update {} RecorderState.init
            ⟨1, 42, true, 2, .unopened 9⟩).1.start_ts =
        RecorderState.init.start_ts ∧
      (update {} RecorderState.init
            ⟨1, 42, true, 2, .unopened 9⟩).1.persons_max =
        RecorderState.init.persons_max ∧
      (update {} RecorderState.init
            ⟨1, 42, true, 2, .unopened 9⟩).1.event_path = some 9 ∧
      (update {} RecorderState.init
            ⟨1, 42, true, 2, .unopened 9⟩).1.prebuffer =
        dequeAppend ({} : RecorderConfig).maxlen
          RecorderState.init.prebuffer (1, 42) :=
  C2_failed_open {} RecorderState.init ⟨1, 42, true, 2, .unopened 9⟩ 9
    rfl rfl rfl

/-- Helper: a successful Idle-state open with a positive post-roll emits the
`new_event`, no `finished_event`, and leaves the recorder Active with the
writer open and `persons_max` raised by the trigger tick's count. -/
theorem update_open_no_finish (cfg : RecorderConfig) (s : RecorderState)
    (i : UpdateInput) (p : ℕ)
    (hrec : s.recording = false) (hm : i.motion = true)
    (ho : i.openOutcome = .opened p) (hpost : ¬cfg.post_seconds ≤ 0) :
    (update cfg s i).2.2 = none ∧
      (update cfg s i).2.1 = some ⟨p, i.now⟩ ∧
      (update cfg s i).1.recording = true ∧
      (update cfg s i).1.writer.isSome = true ∧
      (update cfg s i).1.persons_max =
        max (max s.persons_max i.person_count) i.person_count := by
  simp only [update, hm, hrec, ho, Bool.not_false, Bool.and_self, if_true,
    sub_self]
  split
  · exact ⟨rfl, rfl, rfl, rfl, rfl⟩
  · simp_all

/-- Claim C4 is false as stated: with `post_seconds = 0` (the
`RecorderConfig` dataclass accepts it), an Idle-state trigger opens a
recording and finishes it on the very same tick, so both `new_event` and
`finished_event` are non-null. -/
theorem C4_counterexample :
    (update cfgPostZero RecorderState.init
          ⟨0, 100, true, 1, .opened 5⟩).2.1.isSome = true ∧
      (update cfgPostZero RecorderState.init
          ⟨0, 100, true, 1, .opened 5⟩).2.2.isSome = true := by
  constructor
  · rw [update_newEvent]
    rfl
  · norm_num [update, cfgPostZero, RecorderState.init]

/-- Claim C4 as amended: whenever `post_seconds > 0` (as in every
configuration the application constructs; the default is 5.0), no call to
`update` returns both a `new_event` and a `finished_event`: an open sets
`last_motion_ts = now`, so the finish test `now - last_motion_ts >=
post_seconds` cannot fire on the same tick. -/
theorem C4_events_mutually_exclusive (cfg : RecorderConfig)
    (hpost : 0 < cfg.post_seconds) (s : RecorderState) (i : UpdateInput) :
    ¬((update cfg s i).2.1.isSome = true ∧
      (update cfg s i).2.2.isSome = true) := by
  rintro ⟨h1, h2⟩
  rw [update_newEvent] at h1
  by_cases hio : (i.motion && !s.recording) = true
  · simp only [Bool.and_eq_true] at hio
    obtain ⟨hm, hrec'⟩ := hio
    have hrec : s.recording = false := by
      cases h : s.recording <;> simp_all
    rcases ho : i.openOutcome with _ | p | p
    · simp [ho, hm, hrec] at h1
    · simp [ho, hm, hrec] at h1
    · have h := update_open_no_finish cfg s i p hrec hm ho
        (not_le.mpr hpost)
      rw [h.1] at h2
      simp at h2
  · have hio' : (i.motion && !s.recording) = false := by
      cases h : (i.motion && !s.recording) with
      | false => rfl
      | true => exact absurd h hio
    rw [hio'] at h1
    simp at h1

/-- Claim C4 amended-theorem witness at a concrete configuration, state and
input. -/
theorem C4_witness :
    ¬((update {} RecorderState.init ⟨0, 100, true, 1, .opened 5⟩).2.1.isSome
        = true ∧
      (update {} RecorderState.init ⟨0, 100, true, 1, .opened 5⟩).2.2.isSome
        = true) :=
  C4_events_mutually_exclusive {} (by norm_num) RecorderState.init
    ⟨0, 100, true, 1, .opened 5⟩

/-- Helper: `runFins` unfolds one call at a time. -/
theorem runFins_cons (cfg : RecorderConfig) (s : RecorderState)
    (i : UpdateInput) (rest : List UpdateInput) :
    runFins cfg s (i :: rest) =
      (update cfg s i).2.2 :: runFins cfg (update cfg s i).1 rest := rfl

/-- Helper: on an Active tick (`recording` set, writer live) no `new_event`
is emitted, and either no `finished_event` is emitted — the recorder stays
Active with `persons_max` raised by the tick's count iff the tick had motion
— or a `finished_event` carrying exactly that `persons_max` is emitted. -/
theorem update_recording (cfg : RecorderConfig) (s : RecorderState)
    (i : UpdateInput) (hrec : s.recording = true)
    (hw : s.writer.isSome = true) :
    (update cfg s i).2.1 = none ∧
      (((update cfg s i).2.2 = none ∧
          (update cfg s i).1.recording = true ∧
          (update cfg s i).1.writer.isSome = true ∧
          (update cfg s i).1.persons_max =
            (if i.motion then max s.persons_max i.person_count
             else s.persons_max)) ∨
        (∃ fin, (update cfg s i).2.2 = some fin ∧
          fin.persons_max =
            (if i.motion then max s.persons_max i.person_count
             else s.persons_max))) := by
  have hio : (i.motion && !s.recording) = false := by simp [hrec]
  constructor
  · rw [update_newEvent, hio]
    simp
  · by_cases hm : i.motion = true
    · simp only [update, hrec, hm, Bool.not_true, Bool.and_false,
        Bool.false_eq_true, if_false, if_true]
      split
      · split
        · exact Or.inr ⟨_, rfl, rfl⟩
        · exact Or.inl ⟨rfl, rfl, rfl, rfl⟩
      · simp_all
    · have hm' : i.motion = false := by cases h : i.motion <;> simp_all
      simp only [update, hrec, hm', Bool.not_true, Bool.and_false,
        Bool.false_and, Bool.false_eq_true, if_false]
      split
      · split
        · split
          · exact Or.inr ⟨_, rfl, rfl⟩
          · exact Or.inl ⟨rfl, rfl, rfl, rfl⟩
        · exact Or.inl ⟨rfl, rfl, rfl, rfl⟩
      · simp_all

/-- Helper: while a run stays Active (no `finished_event` emitted),
`persons_max` accumulates exactly the motion-gated maximum of the person
counts. -/
theorem runRec_active_personsMax (cfg : RecorderConfig)
    (l : List UpdateInput) :
    ∀ s : RecorderState, s.recording = true → s.writer.isSome = true →
      (∀ o ∈ runFins cfg s l, o = none) →
      (runRec cfg s l).recording = true ∧
        (runRec cfg s l).writer.isSome = true ∧
        (runRec cfg s l).persons_max = accMax s.persons_max l := by
  induction l with
  | nil => exact fun s h1 h2 _ => ⟨h1, h2, rfl⟩
  | cons i rest ih =>
      intro s h1 h2 hall
      have hstep := update_recording cfg s i h1 h2
      have hhead : (update cfg s i).2.2 = none := by
        refine hall _ ?_
        rw [runFins_cons]
        exact List.mem_cons_self _ _
      rcases hstep.2 with ⟨_, hrec', hw', hpm⟩ | ⟨fin, hfin, _⟩
      · have htail : ∀ o ∈ runFins cfg (update cfg s i).1 rest, o = none := by
          intro o homem
          refine hall o ?_
          rw [runFins_cons]
          exact List.mem_cons_of_mem _ homem
        have hrest := ih (update cfg s i).1 hrec' hw' htail
        refine ⟨hrest.1, hrest.2.1, ?_⟩
        show (runRec cfg (update cfg s i).1 rest).persons_max = _
        rw [hrest.2.2, hpm]
        rfl
      · rw [hhead] at hfin
        cases hfin

/-- Helper: on an Active tick that emits a `finished_event`, its
`persons_max` is the state's maximum raised by the tick's count iff the tick
had motion. -/
theorem update_finish_personsMax (cfg : RecorderConfig) (s : RecorderState)
    (i : UpdateInput) (fin : FinishedEvent) (hrec : s.recording = true)
    (hw : s.writer.isSome = true)
    (hfin : (update cfg s i).2.2 = some fin) :
    fin.persons_max =
      (if i.motion then max s.persons_max i.person_count
       else s.persons_max) := by
  rcases (update_recording cfg s i hrec hw).2 with ⟨hnone, _⟩ | ⟨f, hf, hp⟩
  · rw [hnone] at hfin
    cases hfin
  · rw [hf] at hfin
    injection hfin with h
    rw [← h]
    exact hp

/-- Helper: "`persons_max = 0` whenever Idle" is preserved by `update`. -/
theorem update_idle_personsMax (cfg : RecorderConfig) (s : RecorderState)
    (i : UpdateInput) (h : s.recording = false → s.persons_max = 0) :
    (update cfg s i).1.recording = false →
      (update cfg s i).1.persons_max = 0 := by
  by_cases hio : (i.motion && !s.recording) = true
  · simp only [Bool.and_eq_true] at hio
    obtain ⟨hm, hrec'⟩ := hio
    have hrec : s.recording = false := by cases hh : s.recording <;> simp_all
    rcases ho : i.openOutcome with _ | p | p
    · simp only [update, hm, hrec, ho, Bool.not_false, Bool.and_self,
        if_true]
      intro _
      exact h hrec
    · simp only [update, hm, hrec, ho, Bool.not_false, Bool.and_self,
        if_true]
      intro _
      exact h hrec
    · simp only [update, hm, hrec, ho, Bool.not_false, Bool.and_self,
        if_true, sub_self]
      split
      · split
        · intro _
          rfl
        · intro hafter
          cases hafter
      · intro hafter
        simp_all
  · have hio' : (i.motion && !s.recording) = false := by
      cases hh : (i.motion && !s.recording) with
      | false => rfl
      | true => exact absurd hh hio
    simp only [update, hio', Bool.false_eq_true, if_false]
    split
    · split
      · split
        · intro _
          rfl
        · intro hafter
          split at hafter <;> simp_all
      · intro hafter
        split at hafter <;> simp_all
    · intro hafter
      exact h hafter

/-- Helper: the "Idle implies `persons_max = 0`" invariant holds along every
run. -/
theorem runRec_idle_personsMax (cfg : RecorderConfig)
    (l : List UpdateInput) :
    ∀ s : RecorderState, (s.recording = false → s.persons_max = 0) →
      ((runRec cfg s l).recording = false →
        (runRec cfg s l).persons_max = 0) := by
  induction l with
  | nil => exact fun s h => h
  | cons i rest ih =>
      exact fun s h => ih _ (update_idle_personsMax cfg s i h)

/-- Helper: `accMax` over an appended final call. -/
theorem accMax_append_singleton (m : ℕ) (l : List UpdateInput)
    (i : UpdateInput) :
    accMax m (l ++ [i]) =
      (if i.motion then max (accMax m l) i.person_count
       else accMax m l) := by
  unfold accMax
  rw [List.foldl_append]
  rfl

/-- Claim C1 is false as stated: in a paired episode the run
open(motion, count 1) → tick(no motion, count 5) → finish(no motion, count 0)
emits a `finished_event` with `persons_max = 1`, not the inclusive maximum 5
of the person counts over all ticks of the window: a tick without motion
never feeds `persons_max`. -/
theorem C1_counterexample :
    runFins {} RecorderState.init
        [⟨100, 10, true, 1, .opened 7⟩, ⟨101, 11, false, 5, .raised⟩,
         ⟨110, 12, false, 0, .raised⟩] =
      [none, none, some ⟨some 7, 110, 10, 1⟩] ∧
      List.foldl (fun m i => max m i.person_count) 0
        [(⟨100, 10, true, 1, .opened 7⟩ : UpdateInput),
         ⟨101, 11, false, 5, .raised⟩, ⟨110, 12, false, 0, .raised⟩] = 5 ∧
      (1 : ℕ) ≠ 5 := by
  refine ⟨?_, by decide, by decide⟩
  norm_num [runFins, runOuts, update, RecorderState.init,
    RecorderConfig.maxlen, pyInt, dequeAppend]

/-- Claim C1 as amended: for a paired episode — an Idle state reached from a
fresh recorder, a successful trigger tick `iOpen`, Active ticks `l2` none of
which finishes, and a finishing tick `iFin` — with a positive post-roll, the
`finished_event.persons_max` equals the maximum of `person_count` over the
window's ticks *that had `motion_trigger` true* (the opening tick included),
not over all ticks. -/
theorem C1_personsMax (cfg : RecorderConfig) (l1 : List UpdateInput)
    (iOpen : UpdateInput) (l2 : List UpdateInput) (iFin : UpdateInput)
    (p : ℕ) (fin : FinishedEvent)
    (hm : iOpen.motion = true) (ho : iOpen.openOutcome = .opened p)
    (hpost : ¬cfg.post_seconds ≤ 0)
    (hidle : (runRec cfg RecorderState.init l1).recording = false)
    (hnofin : ∀ o ∈ runFins cfg
        (update cfg (runRec cfg RecorderState.init l1) iOpen).1 l2,
      o = none)
    (hfin : (update cfg
        (runRec cfg (update cfg (runRec cfg RecorderState.init l1) iOpen).1
          l2) iFin).2.2 = some fin) :
    (update cfg (runRec cfg RecorderState.init l1) iOpen).2.1 =
        some ⟨p, iOpen.now⟩ ∧
      fin.persons_max = accMax 0 (iOpen :: (l2 ++ [iFin])) := by
  have hzero : (runRec cfg RecorderState.init l1).persons_max = 0 :=
    runRec_idle_personsMax cfg l1 RecorderState.init (fun _ => rfl) hidle
  have hopen := update_open_no_finish cfg (runRec cfg RecorderState.init l1)
    iOpen p hidle hm ho hpost
  have hrun := runRec_active_personsMax cfg l2 _ hopen.2.2.1
    hopen.2.2.2.1 hnofin
  have hfp := update_finish_personsMax cfg _ iFin fin hrun.1 hrun.2.1 hfin
  refine ⟨hopen.2.1, ?_⟩
  rw [hfp, hrun.2.2, hopen.2.2.2.2, hzero,
    max_eq_left (le_max_right 0 iOpen.person_count)]
  rw [show accMax 0 (iOpen :: (l2 ++ [iFin])) =
        accMax (if iOpen.motion then max 0 iOpen.person_count else 0)
          (l2 ++ [iFin]) from rfl,
    hm, if_pos rfl, accMax_append_singleton]

/-- Claim C1 amended-theorem witness: a concrete paired episode with motion
counts 2 and 3 and a silent finishing tick; the finished event reports 3. -/
theorem C1_witness :
    (update {} (runRec {} RecorderState.init [])
          ⟨100, 10, true, 2, .opened 7⟩).2.1 =
        some ⟨7, 100⟩ ∧
      FinishedEvent.persons_max ⟨some 7, 110, 10, 3⟩ =
        accMax 0 (⟨100, 10, true, 2, .opened 7⟩ ::
          ([⟨101, 11, true, 3, .raised⟩] ++
            [⟨110, 12, false, 0, .raised⟩])) :=
  C1_personsMax {} [] ⟨100, 10, true, 2, .opened 7⟩
    [⟨101, 11, true, 3, .raised⟩] ⟨110, 12, false, 0, .raised⟩ 7
    ⟨some 7, 110, 10, 3⟩ rfl rfl (by norm_num) rfl
    (by norm_num [runFins, runOuts, runRec, update, RecorderState.init,
      RecorderConfig.maxlen, pyInt, dequeAppend])
    (by norm_num [runRec, update, RecorderState.init,
      RecorderConfig.maxlen, pyInt, dequeAppend])

/-- Helper: a bounded-deque append never grows past the capacity. -/
theorem dequeAppend_length_le {α : Type} (m : ℕ) (l : List α) (x : α)
    (h : l.length ≤ m) : (dequeAppend m l x).length ≤ m := by
  unfold dequeAppend
  split
  · simp_all
  · split
    · simp
      omega
    · simp
      omega

/-- Helper: every branch of `update` leaves the pre-buffer exactly as the
initial bounded append produced it. -/
theorem update_prebuffer (cfg : RecorderConfig) (s : RecorderState)
    (i : UpdateInput) :
    (update cfg s i).1.prebuffer =
      dequeAppend cfg.maxlen s.prebuffer (i.now, i.frame) := by
  simp only [update]
  repeat' split
  all_goals rfl

/-- Helper: the pre-buffer length bound is an invariant of `update` runs. -/
theorem runRec_prebuffer_le (cfg : RecorderConfig) (l : List UpdateInput) :
    ∀ s : RecorderState, s.prebuffer.length ≤ cfg.maxlen →
      (runRec cfg s l).prebuffer.length ≤ cfg.maxlen := by
  induction l with
  | nil => exact fun s h => h
  | cons i rest ih =>
      intro s h
      refine ih _ ?_
      rw [update_prebuffer]
      exact dequeAppend_length_le _ _ _ h

/-- Claim C5: starting from a fresh recorder, after any sequence of `update`
calls the pre-buffer holds at most `pre_seconds * target_fps` entries (the
deque capacity `int(pre_seconds * target_fps)` is at most that product); and
appending to a full non-trivial buffer drops exactly the oldest entry. -/
theorem C5_prebuffer_bounded (cfg : RecorderConfig)
    (hpre : 0 ≤ cfg.pre_seconds * (cfg.target_fps : ℚ)) :
    (∀ l : List UpdateInput,
      (((runRec cfg RecorderState.init l).prebuffer.length : ℚ)) ≤
        cfg.pre_seconds * (cfg.target_fps : ℚ)) ∧
      (∀ (s : RecorderState) (i : UpdateInput),
        s.prebuffer.length = cfg.maxlen → 0 < cfg.maxlen →
        (update cfg s i).1.prebuffer =
          s.prebuffer.tail ++ [(i.now, i.frame)]) := by
  constructor
  · intro l
    have hlen : (runRec cfg RecorderState.init l).prebuffer.length ≤
        cfg.maxlen :=
      runRec_prebuffer_le cfg l RecorderState.init (by simp [RecorderState.init])
    have hml : ((cfg.maxlen : ℚ)) ≤ cfg.pre_seconds * (cfg.target_fps : ℚ) := by
      unfold RecorderConfig.maxlen pyInt
      rw [if_neg (not_lt.mpr hpre)]
      have h0 : (0 : ℤ) ≤ ⌊cfg.pre_seconds * (cfg.target_fps : ℚ)⌋ :=
        Int.floor_nonneg.mpr hpre
      calc ((⌊cfg.pre_seconds * (cfg.target_fps : ℚ)⌋.toNat : ℚ))
          = ((⌊cfg.pre_seconds * (cfg.target_fps : ℚ)⌋ : ℚ)) := by
            rw [← Int.cast_natCast (R := ℚ), Int.toNat_of_nonneg h0]
        _ ≤ cfg.pre_seconds * (cfg.target_fps : ℚ) := Int.floor_le _
    calc ((runRec cfg RecorderState.init l).prebuffer.length : ℚ)
        ≤ (cfg.maxlen : ℚ) := by exact_mod_cast hlen
      _ ≤ cfg.pre_seconds * (cfg.target_fps : ℚ) := hml
  · intro s i hlen hpos
    rw [update_prebuffer]
    unfold dequeAppend
    rw [if_neg (Nat.pos_iff_ne_zero.mp hpos), if_neg (by omega)]

/-- Claim C5 witness: the bound instantiated at the default configuration
and a concrete two-call sequence. -/
theorem C5_witness :
    ((runRec {} RecorderState.init
        [⟨0, 1, false, 0, .raised⟩, ⟨1, 2, true, 1, .raised⟩]).prebuffer.length
      : ℚ) ≤
      ({} : RecorderConfig).pre_seconds *
        ((({} : RecorderConfig).target_fps : ℤ) : ℚ) :=
  (C5_prebuffer_bounded {} (by norm_num)).1
    [⟨0, 1, false, 0, .raised⟩, ⟨1, 2, true, 1, .raised⟩]

/-- Helper: Python `round` of an exact integer value. -/
theorem pyRound_intCast (n : ℤ) : pyRound ((n : ℚ)) = n := by
  unfold pyRound
  rw [Int.floor_intCast]
  norm_num

/-- Helper: Python `round` of a natural number value. -/
theorem pyRound_natCast (n : ℕ) : pyRound ((n : ℚ)) = n := by
  exact_mod_cast pyRound_intCast (n : ℤ)

/-- Helper: Python `round` of zero. -/
theorem pyRound_zero : pyRound 0 = 0 := by
  unfold pyRound
  norm_num

/-- Helper: a slice `l[0:b]` with a non-negative upper bound is a take. -/
theorem pySlice_zero_take {α : Type} (l : List α) (b : ℤ) (hb : 0 ≤ b) :
    pySlice l 0 b = l.take b.toNat := by
  simp only [pySlice]
  norm_num [not_lt.mpr hb]

/-- Helper: the clamped crop origin of an identity crop is 0. -/
theorem crop_x0_zero (n : ℕ) :
    max 0 (min ((n : ℤ) - max 1 (n : ℤ))
      (0 - Int.fdiv (max 1 (n : ℤ)) 2)) = 0 := by
  rcases Nat.eq_zero_or_pos n with h | h
  · subst h
    decide
  · have h1 : max 1 ((n : ℕ) : ℤ) = n := max_eq_right (by exact_mod_cast h)
    rw [h1, sub_self]
    have hfd : 0 ≤ Int.fdiv (n : ℤ) 2 :=
      Int.fdiv_nonneg (by positivity) (by norm_num)
    omega

/-- Helper: an identity-sized slice starting at 0 returns the list. -/
theorem slice_axis_id {α : Type} (l : List α) :
    pySlice l 0 (0 + max 1 (l.length : ℤ)) = l := by
  rw [zero_add, pySlice_zero_take _ _ (by positivity)]
  apply List.take_of_length_le
  have h := le_max_right 1 ((l.length : ℕ) : ℤ)
  omega

/-- Claim C9: `crop_zoom(frame, 1.0, 0, 0)` returns the input frame itself
for every rectangular frame (the pure embedding of the identity; the source
returns the same array object, hence no mutation). The early-return shortcut
does not apply at pan `(0, 0)` (it requires centered pan `0.5`), but the
computed crop is the full frame. -/
theorem C9_identity_crop {α : Type} [Zero α] (f : Frame α)
    (hrect : IsRect f (frameW f)) :
    crop_zoom f 1 (.scalar 0) 0 = some f := by
  simp only [crop_zoom, parsePan]
  rw [if_neg (by norm_num)]
  rw [if_neg (by norm_num [min_def, max_def])]
  rw [if_neg (by norm_num)]
  have hclip : max (0 : ℚ) (min 1 0) = 0 := by norm_num [min_def, max_def]
  rw [hclip]
  simp only [div_one, zero_mul, Int.cast_natCast]
  simp only [Bool.false_eq_true, if_false, pyRound_zero, pyRound_natCast]
  rw [crop_x0_zero, crop_x0_zero]
  simp only [frameH]
  rw [slice_axis_id f]
  have hmap : ∀ row ∈ f,
      pySlice row 0 (0 + max 1 ((frameW f : ℕ) : ℤ)) = row := by
    intro row hr
    rw [← hrect row hr]
    exact slice_axis_id row
  rw [List.map_congr_left hmap]
  simp

/-- Claim C9 witness at a concrete 4×4 frame. -/
theorem C9_witness : crop_zoom frame4 1 (.scalar 0) 0 = some frame4 :=
  C9_identity_crop frame4 (by decide)

/-- Helper: `max 1 (round(n / 2.0))` under round-half-to-even is exactly
`croppedHalf n`. -/
theorem max_one_pyRound_half (n : ℕ) :
    max 1 (pyRound ((n : ℚ) / 2)) = (croppedHalf n : ℤ) := by
  obtain ⟨k, r, hr2, rfl⟩ : ∃ k r, r < 2 ∧ n = 2 * k + r :=
    ⟨n / 2, n % 2, Nat.mod_lt _ (by norm_num), (Nat.div_add_mod n 2).symm⟩
  interval_cases r
  · have heq : ((2 * k + 0 : ℕ) : ℚ) / 2 = ((k : ℕ) : ℚ) := by
      push_cast
      ring
    rw [heq, pyRound_natCast]
    unfold croppedHalf
    have hm : ¬((2 * k + 0) % 4 = 3) := by omega
    rw [if_neg hm]
    push_cast
    omega
  · have heq : ((2 * k + 1 : ℕ) : ℚ) / 2 = ((k : ℕ) : ℚ) + 1 / 2 := by
      push_cast
      ring
    rw [heq]
    simp only [pyRound]
    have hfl : ⌊((k : ℕ) : ℚ) + 1 / 2⌋ = (k : ℤ) := by
      rw [Int.floor_eq_iff]
      constructor
      · push_cast
        linarith
      · push_cast
        linarith
    rw [hfl]
    have hfrac : ((k : ℕ) : ℚ) + 1 / 2 - ((k : ℤ) : ℚ) = 1 / 2 := by
      push_cast
      ring
    rw [hfrac, if_neg (by norm_num), if_neg (by norm_num)]
    unfold croppedHalf
    by_cases hk : Int.emod (k : ℤ) 2 = 0
    · rw [if_pos hk]
      have hk' : (k : ℤ) % 2 = 0 := hk
      have hm : ¬((2 * k + 1) % 4 = 3) := by omega
      rw [if_neg hm]
      push_cast
      omega
    · rw [if_neg hk]
      have hk' : ¬((k : ℤ) % 2 = 0) := hk
      have hm : (2 * k + 1) % 4 = 3 := by omega
      rw [if_pos hm]
      push_cast
      omega

/-- Helper: `croppedHalf` never exceeds the axis length. -/
theorem croppedHalf_le (n : ℕ) (h : 1 ≤ n) : croppedHalf n ≤ n := by
  unfold croppedHalf
  split <;> omega

/-- Helper: `croppedHalf` is positive. -/
theorem croppedHalf_pos (n : ℕ) : 1 ≤ croppedHalf n := le_max_left _ _

/-- Helper: the length of an in-bounds slice. -/
theorem pySlice_length {α : Type} (l : List α) (a b : ℤ) (ha : 0 ≤ a)
    (hab : a ≤ b) (hb : b ≤ (l.length : ℤ)) :
    (pySlice l a b).length = (b - a).toNat := by
  simp only [pySlice]
  rw [if_neg (not_lt.mpr ha), if_neg (not_lt.mpr (le_trans ha hab))]
  simp only [List.length_take, List.length_drop]
  omega

/-- Helper: slices only contain elements of the original list. -/
theorem pySlice_subset {α : Type} (l : List α) (a b : ℤ) (x : α)
    (hx : x ∈ pySlice l a b) : x ∈ l := by
  simp only [pySlice] at hx
  exact List.mem_of_mem_drop (List.mem_of_mem_take hx)

/-- Helper: the clamped crop origin stays in bounds when the crop size fits
the axis. -/
theorem crop_origin_bounds (n ch : ℕ) (c : ℤ) (hle : ch ≤ n) :
    0 ≤ max 0 (min ((n : ℤ) - ch) (c - Int.fdiv (ch : ℤ) 2)) ∧
      max 0 (min ((n : ℤ) - ch) (c - Int.fdiv (ch : ℤ) 2)) + ch ≤ n := by
  refine ⟨le_max_left _ _, ?_⟩
  have h1 : min ((n : ℤ) - ch) (c - Int.fdiv (ch : ℤ) 2) ≤ (n : ℤ) - ch :=
    min_le_left _ _
  have h2 : (0 : ℤ) ≤ (n : ℤ) - ch := by
    have : (ch : ℤ) ≤ n := by exact_mod_cast hle
    omega
  have h3 : max 0 (min ((n : ℤ) - ch) (c - Int.fdiv (ch : ℤ) 2)) ≤
      (n : ℤ) - ch := max_le h2 h1
  omega

/-- Helper: the zoom-in slice produced with clamped origins and in-bounds
crop sizes `ch × cw` has exactly those dimensions. -/
theorem crop_dims {α : Type} (f : Frame α) (ch cw : ℕ) (cH cW : ℤ)
    (hrect : IsRect f (frameW f)) (hch : 1 ≤ ch) (hcw : 1 ≤ cw)
    (hchle : ch ≤ frameH f) (hcwle : cw ≤ frameW f) :
    frameH (List.map (fun row => pySlice row
        (max 0 (min ((frameW f : ℤ) - cw) (cW - Int.fdiv (cw : ℤ) 2)))
        (max 0 (min ((frameW f : ℤ) - cw) (cW - Int.fdiv (cw : ℤ) 2)) + cw))
      (pySlice f
        (max 0 (min ((frameH f : ℤ) - ch) (cH - Int.fdiv (ch : ℤ) 2)))
        (max 0 (min ((frameH f : ℤ) - ch) (cH - Int.fdiv (ch : ℤ) 2)) + ch)))
        = ch ∧
      frameW (List.map (fun row => pySlice row
        (max 0 (min ((frameW f : ℤ) - cw) (cW - Int.fdiv (cw : ℤ) 2)))
        (max 0 (min ((frameW f : ℤ) - cw) (cW - Int.fdiv (cw : ℤ) 2)) + cw))
      (pySlice f
        (max 0 (min ((frameH f : ℤ) - ch) (cH - Int.fdiv (ch : ℤ) 2)))
        (max 0 (min ((frameH f : ℤ) - ch) (cH - Int.fdiv (ch : ℤ) 2)) + ch)))
        = cw := by
  have hbH := crop_origin_bounds (frameH f) ch cH hchle
  have hbW := crop_origin_bounds (frameW f) cw cW hcwle
  set aH := max 0 (min ((frameH f : ℤ) - ch) (cH - Int.fdiv (ch : ℤ) 2))
    with haH
  set aW := max 0 (min ((frameW f : ℤ) - cw) (cW - Int.fdiv (cw : ℤ) 2))
    with haW
  have hrowsLen : (pySlice f aH (aH + ch)).length = ch := by
    rw [pySlice_length f aH (aH + ch) hbH.1
      (le_add_of_nonneg_right (by positivity)) hbH.2]
    omega
  constructor
  · simp only [frameH, List.length_map]
    exact hrowsLen
  · rcases hcons : pySlice f aH (aH + ch) with _ | ⟨r, rs⟩
    · rw [hcons] at hrowsLen
      simp at hrowsLen
      omega
    · have hrmem : r ∈ f := by
        refine pySlice_subset f aH (aH + ch) r ?_
        rw [hcons]
        exact List.mem_cons_self _ _
      have hrW : r.length = frameW f := hrect r hrmem
      simp only [List.map_cons, frameW, List.headD_cons]
      rw [pySlice_length r aW (aW + cw) hbW.1
        (le_add_of_nonneg_right (by positivity)) (by rw [hrW]; exact hbW.2)]
      omega

/-- Claim C3 is false as stated: for a 7×7 frame, `crop_zoom(frame, 2.0)`
returns a 4×4 output (Python's `round(3.5)` rounds half to even, giving 4),
while `floor(7/2) = 3`. -/
theorem C3_counterexample :
    (crop_zoom frame7 2).map (fun g => (frameH g, frameW g)) =
        some (4, 4) ∧
      (7 : ℕ) / 2 = 3 ∧ (4 : ℕ) ≠ 3 := by
  refine ⟨?_, by decide, by decide⟩
  have hdims := crop_dims frame7 (croppedHalf (frameH frame7))
    (croppedHalf (frameW frame7))
    (pyRound ((max 0 (min 1 (1/2 : ℚ))) * ((frameH frame7 : ℚ) - 1)))
    (pyRound ((max 0 (min 1 (1/2 : ℚ))) * ((frameW frame7 : ℚ) - 1)))
    (by decide) (croppedHalf_pos _) (croppedHalf_pos _)
    (croppedHalf_le _ (by decide)) (croppedHalf_le _ (by decide))
  simp only [crop_zoom, parsePan]
  rw [if_neg (by norm_num)]
  rw [if_neg (by norm_num)]
  rw [if_neg (by norm_num)]
  simp only [Bool.false_eq_true, if_false, Int.cast_natCast,
    Option.map_some']
  rw [max_one_pyRound_half (frameW frame7),
    max_one_pyRound_half (frameH frame7)]
  rw [hdims.1, hdims.2]
  decide

/-- Claim C3 as amended: for every rectangular frame with `h, w ≥ 1` and any
normalized pan, `crop_zoom(frame, 2.0, pan_x, pan_y)` yields an output of
height `croppedHalf h` and width `croppedHalf w`: `floor(h/2)` rounded half
to even and clamped to at least 1, i.e. `floor(h/2)` exactly unless
`h ≡ 3 (mod 4)`, where it is `floor(h/2) + 1`. -/
theorem C3_crop_sizing {α : Type} [Zero α] (f : Frame α) (px py : ℚ)
    (hrect : IsRect f (frameW f)) (hH : 1 ≤ frameH f)
    (hW : 1 ≤ frameW f) :
    ∃ g, crop_zoom f 2 (.scalar px) py = some g ∧
      frameH g = croppedHalf (frameH f) ∧
      frameW g = croppedHalf (frameW f) := by
  simp only [crop_zoom, parsePan]
  rw [if_neg (by norm_num)]
  rw [if_neg (by norm_num)]
  rw [if_neg (by norm_num)]
  simp only [Bool.false_eq_true, if_false, Int.cast_natCast]
  rw [max_one_pyRound_half (frameW f), max_one_pyRound_half (frameH f)]
  refine ⟨_, rfl, ?_⟩
  exact crop_dims f (croppedHalf (frameH f)) (croppedHalf (frameW f))
    (pyRound ((max 0 (min 1 py)) * ((frameH f : ℚ) - 1)))
    (pyRound ((max 0 (min 1 px)) * ((frameW f : ℚ) - 1)))
    hrect (croppedHalf_pos _) (croppedHalf_pos _)
    (croppedHalf_le _ hH) (croppedHalf_le _ hW)

/-- Claim C3 amended-theorem witness at the concrete 7×7 frame: the crop is
`croppedHalf 7 = 4` on each axis. -/
theorem C3_witness :
    ∃ g, crop_zoom frame7 2 (.scalar (1/2)) (1/2) = some g ∧
      frameH g = croppedHalf (frameH frame7) ∧
      frameW g = croppedHalf (frameW frame7) :=
  C3_crop_sizing frame7 (1/2) (1/2) (by decide) (by decide) (by decide)

/-- Helper: the Python tuple order is total. -/
theorem fileLE_total (a b : FileInfo) :
    fileLE a b = true ∨ fileLE b a = true := by
  unfold fileLE
  by_cases h1 : a.mtime = b.mtime
  · rw [if_neg (not_not_intro h1), if_neg (not_not_intro h1.symm)]
    by_cases h2 : a.name = b.name
    · rw [if_neg (not_not_intro h2), if_neg (not_not_intro h2.symm)]
      simp only [decide_eq_true_eq]
      omega
    · rw [if_pos h2, if_pos (Ne.symm h2)]
      simp only [decide_eq_true_eq]
      omega
  · rw [if_pos h1, if_pos (Ne.symm h1)]
    simp only [decide_eq_true_eq]
    rcases lt_trichotomy a.mtime b.mtime with h | h | h
    · exact Or.inl h
    · exact absurd h h1
    · exact Or.inr h

/-- Helper: the Python tuple order is transitive. -/
theorem fileLE_trans (a b c : FileInfo) (h1 : fileLE a b = true)
    (h2 : fileLE b c = true) : fileLE a c = true := by
  unfold fileLE at h1 h2 ⊢
  by_cases hab : a.mtime = b.mtime
  · rw [if_neg (not_not_intro hab)] at h1
    by_cases hbc : b.mtime = c.mtime
    · rw [if_neg (not_not_intro hbc)] at h2
      rw [if_neg (not_not_intro (hab.trans hbc))]
      by_cases hn1 : a.name = b.name
      · rw [if_neg (not_not_intro hn1)] at h1
        by_cases hn2 : b.name = c.name
        · rw [if_neg (not_not_intro hn2)] at h2
          rw [if_neg (not_not_intro (hn1.trans hn2))]
          simp only [decide_eq_true_eq] at h1 h2 ⊢
          omega
        · rw [if_pos hn2] at h2
          simp only [decide_eq_true_eq] at h2
          rw [if_pos (by omega : a.name ≠ c.name)]
          simp only [decide_eq_true_eq]
          omega
      · rw [if_pos hn1] at h1
        simp only [decide_eq_true_eq] at h1
        by_cases hn2 : b.name = c.name
        · rw [if_pos (by omega : a.name ≠ c.name)]
          simp only [decide_eq_true_eq]
          omega
        · rw [if_pos hn2] at h2
          simp only [decide_eq_true_eq] at h2
          rw [if_pos (by omega : a.name ≠ c.name)]
          simp only [decide_eq_true_eq]
          omega
    · rw [if_pos hbc] at h2
      simp only [decide_eq_true_eq] at h2
      have hac : a.mtime ≠ c.mtime := by
        rw [hab]
        exact ne_of_lt h2
      rw [if_pos hac]
      simp only [decide_eq_true_eq]
      rw [hab]
      exact h2
  · rw [if_pos hab] at h1
    simp only [decide_eq_true_eq] at h1
    by_cases hbc : b.mtime = c.mtime
    · have hac : a.mtime ≠ c.mtime := by
        rw [← hbc]
        exact hab
      rw [if_pos hac]
      simp only [decide_eq_true_eq]
      rw [← hbc]
      exact h1
    · rw [if_pos hbc] at h2
      simp only [decide_eq_true_eq] at h2
      have hlt : a.mtime < c.mtime := lt_trans h1 h2
      rw [if_pos (ne_of_lt hlt)]
      simp only [decide_eq_true_eq]
      exact hlt

/-- Helper: inserting into a list is a permutation of consing. -/
theorem insertFile_perm (x : FileInfo) (l : List FileInfo) :
    (insertFile x l).Perm (x :: l) := by
  induction l with
  | nil => exact List.Perm.refl _
  | cons y ys ih =>
      unfold insertFile
      split
      · exact List.Perm.refl _
      · exact (List.Perm.cons y ih).trans (List.Perm.swap x y ys)

/-- Helper: insertion preserves sortedness. -/
theorem insertFile_sorted (x : FileInfo) (l : List FileInfo)
    (hl : SortedLE l) : SortedLE (insertFile x l) := by
  induction l with
  | nil => simp [insertFile, SortedLE]
  | cons y ys ih =>
      rcases List.pairwise_cons.mp hl with ⟨hy, hys⟩
      unfold insertFile
      split
      · rename_i hxy
        refine List.pairwise_cons.mpr ⟨?_, hl⟩
        intro z hz
        rcases List.mem_cons.mp hz with rfl | hz
        · exact hxy
        · exact fileLE_trans x y z hxy (hy z hz)
      · rename_i hxy
        have hyx : fileLE y x = true := by
          rcases fileLE_total x y with h | h
          · exact absurd h hxy
          · exact h
        refine List.pairwise_cons.mpr ⟨?_, ih hys⟩
        intro z hz
        have hz' : z = x ∨ z ∈ ys :=
          List.mem_cons.mp ((insertFile_perm x ys).mem_iff.mp hz)
        rcases hz' with rfl | hz'
        · exact hyx
        · exact hy z hz'

/-- Helper: `files.sort()` produces a `fileLE`-sorted list. -/
theorem sortFiles_sorted (l : List FileInfo) : SortedLE (sortFiles l) := by
  induction l with
  | nil => simp [sortFiles, SortedLE]
  | cons x xs ih => exact insertFile_sorted x (sortFiles xs) ih

/-- Helper: `files.sort()` permutes the input. -/
theorem sortFiles_perm (l : List FileInfo) : (sortFiles l).Perm l := by
  induction l with
  | nil => exact List.Perm.refl _
  | cons x xs ih =>
      exact (insertFile_perm x (sortFiles xs)).trans (List.Perm.cons x ih)

/-- Helper: a sorted candidate list with pairwise-distinct mtimes is
strictly ascending in mtime. -/
theorem sorted_distinct_strict (l : List FileInfo) (hs : SortedLE l)
    (hd : l.Pairwise fun a b => a.mtime ≠ b.mtime) :
    l.Pairwise fun a b => a.mtime < b.mtime := by
  refine (hs.and hd).imp ?_
  rintro a b ⟨h1, h2⟩
  unfold fileLE at h1
  rw [if_pos h2] at h1
  simpa using h1

/-- Helper: `sumSizes` over a cons. -/
theorem sumSizes_cons (f : FileInfo) (l : List FileInfo) :
    sumSizes (f :: l) = f.size + sumSizes l := by
  simp [sumSizes]

/-- Helper: the eviction loop on an empty candidate list deletes nothing. -/
theorem evictLoop_nil (limit : ℤ) (ok : FileInfo → Bool) (total : ℤ) :
    evictLoop limit ok [] total = [] := by
  unfold evictLoop
  split <;> rfl

/-- Helper: one unfolding of the eviction loop. -/
theorem evictLoop_cons (limit : ℤ) (ok : FileInfo → Bool) (f : FileInfo)
    (rest : List FileInfo) (total : ℤ) :
    evictLoop limit ok (f :: rest) total =
      if total ≤ limit then []
      else if ok f then f :: evictLoop limit ok rest (total - f.size)
      else evictLoop limit ok rest total := rfl

/-- Helper: the eviction loop only deletes candidates (in order). -/
theorem evictLoop_sublist (limit : ℤ) (ok : FileInfo → Bool) :
    ∀ (files : List FileInfo) (total : ℤ),
      (evictLoop limit ok files total).Sublist files := by
  intro files
  induction files with
  | nil =>
      intro total
      rw [evictLoop_nil]
  | cons f rest ih =>
      intro total
      rw [evictLoop_cons]
      split
      · exact List.nil_sublist _
      · split
        · exact List.Sublist.cons₂ f (ih (total - f.size))
        · exact List.Sublist.cons f (ih total)

/-- Helper: the eviction loop only reports successful unlinks. -/
theorem evictLoop_ok (limit : ℤ) (ok : FileInfo → Bool) :
    ∀ (files : List FileInfo) (total : ℤ) (f : FileInfo),
      f ∈ evictLoop limit ok files total → ok f = true := by
  intro files
  induction files with
  | nil =>
      intro total f hf
      rw [evictLoop_nil] at hf
      simp at hf
  | cons g rest ih =>
      intro total f hf
      rw [evictLoop_cons] at hf
      split at hf
      · simp at hf
      · split at hf
        · rename_i hok
          rcases List.mem_cons.mp hf with rfl | hf
          · exact hok
          · exact ih _ f hf
        · exact ih _ f hf

/-- Helper: every deletion happens while the running total still exceeds the
limit. -/
theorem evictLoop_over_limit (limit : ℤ) (ok : FileInfo → Bool) :
    ∀ (files : List FileInfo) (total : ℤ) (k : ℕ),
      k < (evictLoop limit ok files total).length →
      limit < total - sumSizes ((evictLoop limit ok files total).take k) := by
  intro files
  induction files with
  | nil =>
      intro total k hk
      rw [evictLoop_nil] at hk
      simp at hk
  | cons f rest ih =>
      intro total k hk
      rw [evictLoop_cons] at hk ⊢
      split at hk
      · simp at hk
      · rename_i hne
        rw [if_neg hne]
        split at hk
        · rename_i hok
          rw [if_pos hok]
          cases k with
          | zero =>
              simp only [List.take_zero, sumSizes, List.map_nil,
                List.sum_nil, sub_zero]
              omega
          | succ j =>
              simp only [List.length_cons, Nat.succ_lt_succ_iff] at hk
              have hrec := ih (total - f.size) j hk
              rw [List.take_succ_cons, sumSizes_cons]
              omega
        · rename_i hok
          rw [if_neg hok]
          exact ih total k hk

/-- Helper: once the total is at or under the limit, nothing is deleted. -/
theorem evictLoop_nil_of_le (limit : ℤ) (ok : FileInfo → Bool)
    (files : List FileInfo) (total : ℤ) (h : total ≤ limit) :
    evictLoop limit ok files total = [] := by
  unfold evictLoop
  rw [if_pos h]

/-- Helper: the loop never gives up while over the limit — if the remaining
total still exceeds the limit after the loop, then every candidate was
attempted, and exactly those whose unlink succeeded were deleted. -/
theorem evictLoop_complete (limit : ℤ) (ok : FileInfo → Bool) :
    ∀ (files : List FileInfo) (total : ℤ),
      limit < total - sumSizes (evictLoop limit ok files total) →
      evictLoop limit ok files total = files.filter ok := by
  intro files
  induction files with
  | nil =>
      intro total _
      rw [evictLoop_nil]
      rfl
  | cons f rest ih =>
      intro total hover
      rw [evictLoop_cons] at hover ⊢
      split at hover
      · rename_i hle
        simp only [sumSizes, List.map_nil, List.sum_nil, sub_zero] at hover
        exact absurd hle (not_le.mpr hover)
      · rename_i hne
        rw [if_neg hne]
        split at hover
        · rename_i hok
          rw [if_pos hok, List.filter_cons_of_pos hok]
          rw [sumSizes_cons] at hover
          have : limit < (total - f.size) -
              sumSizes (evictLoop limit ok rest (total - f.size)) := by
            omega
          rw [ih (total - f.size) this]
        · rename_i hok
          have hokf : ok f = false := by
            cases h : ok f
            · rfl
            · exact absurd h hok
          rw [if_neg hok, List.filter_cons_of_neg (by simp [hokf])]
          exact ih total hover

/-- Claim C6: on a directory over its byte limit the enforcer deletes files
strictly in ascending modification-time order (given pairwise-distinct
mtimes), deletes only files whose unlink succeeded, performs each deletion
only while the running total still exceeds the limit and keeps deleting
while it exceeds it — so it stops exactly when the running total first
reaches the limit or below (in particular it deletes nothing when already
under, and if it ends still over the limit then it attempted every
candidate, deleting all whose unlink succeeded) — and a per-file unlink
failure merely skips that file and continues the loop with the remaining
candidates. -/
theorem C6_quota_eviction (files : List FileInfo) (limit : ℤ)
    (ok : FileInfo → Bool)
    (hdist : files.Pairwise fun a b => a.mtime ≠ b.mtime) :
    (enforceStorageLimit files limit ok).Sublist (sortFiles files) ∧
      (enforceStorageLimit files limit ok).Pairwise
        (fun a b => a.mtime < b.mtime) ∧
      (∀ f ∈ enforceStorageLimit files limit ok, ok f = true) ∧
      (∀ k, k < (enforceStorageLimit files limit ok).length →
        limit < sumSizes (sortFiles files) -
          sumSizes ((enforceStorageLimit files limit ok).take k)) ∧
      (sumSizes (sortFiles files) ≤ limit →
        enforceStorageLimit files limit ok = []) ∧
      (limit < sumSizes (sortFiles files) -
          sumSizes (enforceStorageLimit files limit ok) →
        enforceStorageLimit files limit ok =
          (sortFiles files).filter ok) ∧
      (∀ (f : FileInfo) (rest : List FileInfo) (total : ℤ),
        ¬total ≤ limit → ok f = false →
        evictLoop limit ok (f :: rest) total =
          evictLoop limit ok rest total) := by
  have hdef : enforceStorageLimit files limit ok =
      evictLoop limit ok (sortFiles files) (sumSizes (sortFiles files)) :=
    rfl
  have hdist' : (sortFiles files).Pairwise
      (fun a b => a.mtime ≠ b.mtime) :=
    ((sortFiles_perm files).pairwise_iff
      (fun h => Ne.symm h)).mpr hdist
  have hstrict := sorted_distinct_strict _ (sortFiles_sorted files) hdist'
  have hsub := evictLoop_sublist limit ok (sortFiles files)
    (sumSizes (sortFiles files))
  refine ⟨hdef ▸ hsub, ?_, ?_, ?_, ?_, ?_, ?_⟩
  · rw [hdef]
    exact List.Pairwise.sublist hsub hstrict
  · rw [hdef]
    exact fun f hf => evictLoop_ok limit ok _ _ f hf
  · rw [hdef]
    exact fun k hk => evictLoop_over_limit limit ok _ _ k hk
  · intro hle
    rw [hdef]
    exact evictLoop_nil_of_le limit ok _ _ hle
  · rw [hdef]
    exact fun hover => evictLoop_complete limit ok _ _ hover
  · intro f rest total hnot hok
    rw [evictLoop_cons, if_neg hnot, if_neg (by simp [hok])]

/-- Claim C6 witness: three files of size 5 with distinct mtimes over a
limit of 7; the stated properties instantiated there. -/
theorem C6_witness :
    (enforceStorageLimit [⟨3, 2, 5⟩, ⟨1, 0, 5⟩, ⟨2, 1, 5⟩] 7
        (fun f => f.name != 0)).Sublist
        (sortFiles [⟨3, 2, 5⟩, ⟨1, 0, 5⟩, ⟨2, 1, 5⟩]) ∧
      (enforceStorageLimit [⟨3, 2, 5⟩, ⟨1, 0, 5⟩, ⟨2, 1, 5⟩] 7
        (fun f => f.name != 0)).Pairwise (fun a b => a.mtime < b.mtime) ∧
      (∀ f ∈ enforceStorageLimit [⟨3, 2, 5⟩, ⟨1, 0, 5⟩, ⟨2, 1, 5⟩] 7
        (fun f => f.name != 0), (fun f : FileInfo => f.name != 0) f =
          true) ∧
      (∀ k, k < (enforceStorageLimit [⟨3, 2, 5⟩, ⟨1, 0, 5⟩, ⟨2, 1, 5⟩] 7
          (fun f => f.name != 0)).length →
        (7 : ℤ) < sumSizes (sortFiles [⟨3, 2, 5⟩, ⟨1, 0, 5⟩, ⟨2, 1, 5⟩]) -
          sumSizes ((enforceStorageLimit [⟨3, 2, 5⟩, ⟨1, 0, 5⟩, ⟨2, 1, 5⟩] 7
            (fun f => f.name != 0)).take k)) ∧
      (sumSizes (sortFiles [⟨3, 2, 5⟩, ⟨1, 0, 5⟩, ⟨2, 1, 5⟩]) ≤ 7 →
        enforceStorageLimit [⟨3, 2, 5⟩, ⟨1, 0, 5⟩, ⟨2, 1, 5⟩] 7
          (fun f => f.name != 0) = []) ∧
      ((7 : ℤ) < sumSizes (sortFiles [⟨3, 2, 5⟩, ⟨1, 0, 5⟩, ⟨2, 1, 5⟩]) -
          sumSizes (enforceStorageLimit [⟨3, 2, 5⟩, ⟨1, 0, 5⟩, ⟨2, 1, 5⟩] 7
            (fun f => f.name != 0)) →
        enforceStorageLimit [⟨3, 2, 5⟩, ⟨1, 0, 5⟩, ⟨2, 1, 5⟩] 7
          (fun f => f.name != 0) =
          (sortFiles [⟨3, 2, 5⟩, ⟨1, 0, 5⟩, ⟨2, 1, 5⟩]).filter
            (fun f => f.name != 0)) ∧
      (∀ (f : FileInfo) (rest : List FileInfo) (total : ℤ),
        ¬total ≤ 7 → (fun f : FileInfo => f.name != 0) f = false →
        evictLoop 7 (fun f => f.name != 0) (f :: rest) total =
          evictLoop 7 (fun f => f.name != 0) rest total) :=
  C6_quota_eviction [⟨3, 2, 5⟩, ⟨1, 0, 5⟩, ⟨2, 1, 5⟩] 7
    (fun f => f.name != 0) (by decide)

/-- Claim C7: for every `ReconnectState` and current time `now`,
`should_attempt()` returns true iff `enabled` holds, `attempt < max_attempts`,
and `now - last_attempt_time >= min(base_delay * 2^attempt, max_delay)`; in
particular, once `attempt >= max_attempts` it is false regardless of elapsed
time (the right-hand side is then unsatisfiable). -/
theorem C7_should_attempt_iff (s : ReconnectState) (now : ℚ) :
    s.should_attempt now = true ↔
      s.enabled = true ∧ s.attempt < s.max_attempts ∧
        min (s.base_delay * (2 : ℚ) ^ s.attempt) s.max_delay ≤
          now - s.last_attempt_time := by
  unfold ReconnectState.should_attempt
  by_cases he : s.enabled
  · by_cases hm : s.max_attempts ≤ s.attempt
    · simp [he, hm, not_lt.mpr hm]
    · simp [he, hm, lt_of_not_ge hm]
  · simp [he]

/-- Claim C10: for every enabled `ReconnectState` with `max_attempts > 0`,
the state after `reset()` (equal to a freshly constructed one with the same
configuration) has `attempt = 0` and `last_attempt_time = 0.0`, and
`should_attempt()` returns true for any current time `now ≥ base_delay`. -/
theorem C10_fresh_state_attempts (s : ReconnectState) (now : ℚ)
    (he : s.enabled = true) (hm : 0 < s.max_attempts)
    (hn : s.base_delay ≤ now) :
    s.reset.attempt = 0 ∧ s.reset.last_attempt_time = 0 ∧
      ReconnectState.make s.enabled s.max_attempts s.base_delay s.max_delay =
        s.reset ∧
      s.reset.should_attempt now = true := by
  refine ⟨rfl, rfl, rfl, ?_⟩
  unfold ReconnectState.should_attempt ReconnectState.reset
  simp [he, not_le.mpr hm]
  exact Or.inl hn

/-- Claim C10 witness at a concrete state and time. -/
theorem C10_witness :
    (ReconnectState.make true 5 1 30).reset.attempt = 0 ∧
      (ReconnectState.make true 5 1 30).reset.last_attempt_time = 0 ∧
      ReconnectState.make true 5 1 30 =
        (ReconnectState.make true 5 1 30).reset ∧
      (ReconnectState.make true 5 1 30).reset.should_attempt 2 = true :=
  C10_fresh_state_attempts (ReconnectState.make true 5 1 30) 2 rfl
    (by decide) (by decide)

/-- Claim C8 is false as stated: with `min_factor = 2 ≤ max_factor = 4` and
`factor = 3` within bounds, `reset()` sets `factor = 1.0`, which lies outside
`[min_factor, max_factor]`. -/
theorem C8_counterexample :
    (zoomCE.min_factor ≤ zoomCE.factor ∧ zoomCE.factor ≤ zoomCE.max_factor ∧
        zoomCE.min_factor ≤ zoomCE.max_factor) ∧
      ¬(zoomCE.min_factor ≤ zoomCE.reset.factor ∧
        zoomCE.reset.factor ≤ zoomCE.max_factor) := by
  decide

/-- Claim C8 as amended: for any `min_factor ≤ max_factor`, any `step`, and a
factor within bounds, `zoom_in` and `zoom_out` keep the factor within
`[min_factor, max_factor]`; `reset` does so provided
`min_factor ≤ 1 ≤ max_factor` (as the default configuration satisfies), since
it restores the constant `factor = 1.0` regardless of the bounds. -/
theorem C8_zoom_bounds (s : ZoomState)
    (hb : s.min_factor ≤ s.max_factor)
    (h1 : s.min_factor ≤ s.factor) (h2 : s.factor ≤ s.max_factor) :
    (s.min_factor ≤ s.zoom_in.factor ∧ s.zoom_in.factor ≤ s.max_factor) ∧
      (s.min_factor ≤ s.zoom_out.factor ∧
        s.zoom_out.factor ≤ s.max_factor) ∧
      (s.min_factor ≤ 1 → (1 : ℚ) ≤ s.max_factor →
        s.min_factor ≤ s.reset.factor ∧ s.reset.factor ≤ s.max_factor) := by
  unfold ZoomState.zoom_in ZoomState.zoom_out ZoomState.reset
  refine ⟨⟨?_, min_le_left _ _⟩, ⟨le_max_left _ _, ?_⟩,
    fun hl hr => ⟨hl, hr⟩⟩
  · exact le_min hb (le_trans h1 (le_add_of_nonneg_right (abs_nonneg _)))
  · exact max_le hb (le_trans (sub_le_self _ (abs_nonneg _)) h2)

/-- Claim C8 witness: the amended bounds at the default `ZoomState`. -/
theorem C8_witness :
    (({} : ZoomState).min_factor ≤ ({} : ZoomState).zoom_in.factor ∧
        ({} : ZoomState).zoom_in.factor ≤ ({} : ZoomState).max_factor) ∧
      (({} : ZoomState).min_factor ≤ ({} : ZoomState).zoom_out.factor ∧
        ({} : ZoomState).zoom_out.factor ≤ ({} : ZoomState).max_factor) ∧
      (({} : ZoomState).min_factor ≤ 1 → (1 : ℚ) ≤ ({} : ZoomState).max_factor →
        ({} : ZoomState).min_factor ≤ ({} : ZoomState).reset.factor ∧
          ({} : ZoomState).reset.factor ≤ ({} : ZoomState).max_factor) :=
  C8_zoom_bounds {} (by norm_num) (by norm_num) (by norm_num)

end AnomRecorder
